import Mathlib

/-!
Verification development for a log-structured, persistent key-value store
(an append-only command log with generation-numbered segment files, an
in-memory key to log-position index, and threshold-triggered compaction).

The definitions below are a shallow embedding of the storage engine
(KvStore in practice2.rs): files are byte lists, machine integers are Nat,
fallible operations return an explicit result type, and a Rust panic
(a failed expect) is a distinct outcome.  The buffered reader and writer
wrappers are embedded by their observable fields: the tracked position
field and the underlying file cursor.
-/

/-- Commands stored in the log: a Set of a key to a value, or a Remove of a key. -/
inductive Command where
  | set (key value : String)
  | remove (key : String)
deriving DecidableEq, Repr

/-- Locator of one record inside one segment: generation, byte offset, byte length. -/
structure CommandPos where
  gen : Nat
  pos : Nat
  len : Nat
deriving DecidableEq, Repr

/-- State of a position-tracking buffered reader: the tracked pos field of
the wrapper, and the actual byte offset of the underlying file cursor. -/
structure ReaderSt where
  pos : Nat
  filePos : Nat
deriving DecidableEq, Repr

/-- Seek of the position-tracking reader to SeekFrom::Start(p): the
underlying cursor lands on p and the underlying seek returns p; the
wrapper then runs pos += returned offset, so the tracked pos becomes
pos + p (the source's Seek impl adds instead of assigning). -/
def ReaderSt.seekStart (r : ReaderSt) (p : Nat) : ReaderSt := ⟨r.pos + p, p⟩

/-- A successful read of n bytes advances both the tracked pos and the
underlying cursor by exactly n. -/
def ReaderSt.readAdvance (r : ReaderSt) (n : Nat) : ReaderSt :=
  ⟨r.pos + n, r.filePos + n⟩

/-- The engine's closed error taxonomy. -/
inductive KvsError where
  | IOError
  | SerdeError
  | KeyNotFound
  | UnexpectedCommandType
deriving DecidableEq, Repr

/-- Outcome of an engine operation: a value, an engine error, or a Rust
panic (a failed expect call). -/
inductive Res (α : Type) where
  | ok (a : α)
  | err (e : KvsError)
  | crash
deriving DecidableEq, Repr

/-- Bytes of a string, one Nat per character. -/
def strBytes (s : String) : List Nat := s.toList.map Char.toNat

/-- String rebuilt from bytes. -/
def bytesStr (bs : List Nat) : String := String.mk (bs.map Char.ofNat)

/-- Modelled from the spec: the serialization of a Command.  The source
serializes with serde_json, which is outside the repository; section 4.3 of
the spec requires only a self-delimiting streaming encoding on which the
reader and writer agree, with stable record lengths.  This encoding is a
tag byte, then the key length and key bytes, then (for Set) the value
length and value bytes. -/
def encode : Command → List Nat
  | .set k v =>
      0 :: (strBytes k).length :: (strBytes k ++ ((strBytes v).length :: strBytes v))
  | .remove k => 1 :: (strBytes k).length :: strBytes k

/-- Modelled from the spec: streaming decode of one Command from the front
of a byte list, returning the command and the exact number of bytes it
occupies (the self-delimiting property of section 4.3). -/
def decodeOne : List Nat → Option (Command × Nat)
  | 0 :: kl :: rest =>
      if kl ≤ rest.length then
        match rest.drop kl with
        | vl :: rest2 =>
            if vl ≤ rest2.length then
              some (.set (bytesStr (rest.take kl)) (bytesStr (rest2.take vl)), 3 + kl + vl)
            else none
        | [] => none
      else none
  | 1 :: kl :: rest =>
      if kl ≤ rest.length then some (.remove (bytesStr (rest.take kl)), 2 + kl)
      else none
  | _ => none

theorem decodeOne_pos {bs : List Nat} {c : Command} {u : Nat}
    (h : decodeOne bs = some (c, u)) : 0 < u ∧ 0 < bs.length := by
  match bs with
  | [] => simp [decodeOne] at h
  | 0 :: kl :: rest =>
    simp only [decodeOne] at h
    split at h
    · split at h
      · split at h
        · simp only [Option.some.injEq, Prod.mk.injEq] at h
          obtain ⟨-, h2⟩ := h
          simp only [List.length_cons]
          omega
        · exact absurd h (by simp)
      · exact absurd h (by simp)
    · exact absurd h (by simp)
  | 1 :: kl :: rest =>
    simp only [decodeOne] at h
    split at h
    · simp only [Option.some.injEq, Prod.mk.injEq] at h
      obtain ⟨-, h2⟩ := h
      simp only [List.length_cons]
      omega
    · exact absurd h (by simp)
  | (n+2) :: rest => simp [decodeOne] at h
  | [n] =>
    cases n with
    | zero => simp [decodeOne] at h
    | succ m => cases m with
      | zero => simp [decodeOne] at h
      | succ k => simp [decodeOne] at h

/-! Association lists keyed by generation number.  The source uses a
HashMap from gen to reader and the filesystem's set of gen.log files; both
are embedded as lists of pairs, kept with distinct keys by construction. -/

/-- Lookup in an association list keyed by Nat. -/
def alLookup (k : Nat) : List (Nat × α) → Option α
  | [] => none
  | (k', v) :: rest => if k = k' then some v else alLookup k rest

/-- Insert or overwrite a key (HashMap insert); keeps keys in ascending
order when the input is ascending. -/
def alInsert (k : Nat) (v : α) : List (Nat × α) → List (Nat × α)
  | [] => [(k, v)]
  | (k', v') :: rest =>
      if k < k' then (k, v) :: (k', v') :: rest
      else if k = k' then (k, v) :: rest
      else (k', v') :: alInsert k v rest

/-- Remove a key (HashMap remove / file deletion). -/
def alRemove (k : Nat) (l : List (Nat × α)) : List (Nat × α) :=
  l.filter (fun e => e.1 != k)

/-- Append bytes to the file stored under a key (a write through the open
handle of that segment's file). -/
def alAppendAt (k : Nat) (bs : List Nat) : List (Nat × List Nat) → List (Nat × List Nat)
  | [] => []
  | (k', c) :: rest =>
      if k' = k then (k', c ++ bs) :: rest else (k', c) :: alAppendAt k bs rest

/-- Keys of an association list. -/
def alKeys (l : List (Nat × α)) : List Nat := l.map Prod.fst

/-! The in-memory index: a BTreeMap from key to CommandPos, embedded as an
association list kept in ascending key order (BTreeMap iterates in key
order, which compaction relies on). -/

/-- Lexicographic order on character lists by code point; on UTF-8 encoded
strings this is exactly the byte order a Rust BTreeMap of Strings sorts by. -/
def charListLt : List Char → List Char → Bool
  | [], [] => false
  | [], _ :: _ => true
  | _ :: _, [] => false
  | a :: as, b :: bs =>
      if a.toNat < b.toNat then true
      else if a.toNat = b.toNat then charListLt as bs
      else false

/-- The BTreeMap key order on strings. -/
def strLt (a b : String) : Bool := charListLt a.toList b.toList

/-- Index lookup. -/
def idxLookup (k : String) : List (String × CommandPos) → Option CommandPos
  | [] => none
  | (k', v) :: rest => if k = k' then some v else idxLookup k rest

/-- BTreeMap insert: returns the displaced entry, if any, and the new map. -/
def idxInsert (k : String) (v : CommandPos) :
    List (String × CommandPos) → Option CommandPos × List (String × CommandPos)
  | [] => (none, [(k, v)])
  | (k', v') :: rest =>
      if strLt k k' then (none, (k, v) :: (k', v') :: rest)
      else if k = k' then (some v', (k, v) :: rest)
      else
        let r := idxInsert k v rest
        (r.1, (k', v') :: r.2)

/-- BTreeMap remove: returns the removed entry, if any, and the new map. -/
def idxRemove (k : String) :
    List (String × CommandPos) → Option CommandPos × List (String × CommandPos)
  | [] => (none, [])
  | (k', v') :: rest =>
      if k = k' then (some v', rest)
      else
        let r := idxRemove k rest
        (r.1, (k', v') :: r.2)

/-- Length of a displaced index entry, 0 when there was none (the amount
the stale counter grows by). -/
def optLen : Option CommandPos → Nat
  | some o => o.len
  | none => 0

/-- Compaction trigger from the source: 1024 * 1024 bytes of stale data. -/
def COMPACTION_THRESHOLD : Nat := 1024 * 1024

/-- The engine state (struct KvStore): the on-disk segment files keyed by
generation, the reader map keyed by generation, the in-memory index, the
stale-byte counter, the active generation, and the active writer's tracked
position (the path field is the directory all of these live in and carries
no further state).  Writes are flushed before every operation returns, so
the writer's buffer is not represented and appends land in the segment
content directly. -/
structure KvStore where
  segments : List (Nat × List Nat)
  readers : List (Nat × ReaderSt)
  index_map : List (String × CommandPos)
  uncompacted : Nat
  current_gen : Nat
  writerPos : Nat
deriving DecidableEq, Repr

/-- new_log_file: create (or append-open) gen.log, install a fresh reader
for it, and return the writer's starting tracked position.  The writer is
opened in append mode and BufWriterWithPos::new records seek(Current(0)),
which is 0 for a freshly append-opened file; the fresh reader likewise
starts at offset 0. -/
def new_log_file (gen : Nat) (segments : List (Nat × List Nat))
    (readers : List (Nat × ReaderSt)) :
    List (Nat × List Nat) × List (Nat × ReaderSt) × Nat :=
  let content := (alLookup gen segments).getD []
  (alInsert gen content segments, alInsert gen ⟨0, 0⟩ readers, 0)

/-- The body of compact's for loop over index_map.values_mut(), in index
(key) order: for each entry, seek the segment reader to the entry's offset
unless the tracked pos already equals it, copy up to len bytes into the
compaction writer, and rewrite the locator to the compaction generation at
the writer's position before the copy.  Fails (a panic) when an entry's
generation has no reader.  Reads advance both the tracked pos and the file
cursor by the bytes copied; the seek adds the target offset to the tracked
pos, mirroring the pos += seek result in the source. -/
def compactLoop (cgen : Nat) (segments : List (Nat × List Nat)) :
    List (Nat × ReaderSt) → List (String × CommandPos) → Nat → List Nat →
    Option (List (String × CommandPos) × List (Nat × ReaderSt) × List Nat)
  | readers, [], _, compContent => some ([], readers, compContent)
  | readers, (k, cp) :: rest, new_pos, compContent =>
    match alLookup cp.gen readers with
    | none => none
    | some r =>
      let r1 : ReaderSt := if r.pos ≠ cp.pos then r.seekStart cp.pos else r
      let content := (alLookup cp.gen segments).getD []
      let chunk := (content.drop r1.filePos).take cp.len
      let copied := chunk.length
      let r2 : ReaderSt := r1.readAdvance copied
      match compactLoop cgen segments (alInsert cp.gen r2 readers) rest
          (new_pos + copied) (compContent ++ chunk) with
      | none => none
      | some (idxRest, readersF, contentF) =>
          some ((k, ⟨cgen, new_pos, copied⟩) :: idxRest, readersF, contentF)

/-- The stale-generation sweep at the end of compact: remove each listed
generation from the readers map and delete its file; deleting a file that
is not on disk is an I/O error. -/
def deleteStale :
    List Nat → List (Nat × ReaderSt) → List (Nat × List Nat) →
    Option (List (Nat × ReaderSt) × List (Nat × List Nat))
  | [], readers, segments => some (readers, segments)
  | g :: rest, readers, segments =>
    let readers' := alRemove g readers
    if (alLookup g segments).isSome then deleteStale rest readers' (alRemove g segments)
    else none

/-- KvStore::compact: pick compaction_gen = current_gen + 1, advance the
active generation to current_gen + 2 with a fresh writer, copy every live
record into the compaction segment (flushed after the loop), then drop and
delete every generation below compaction_gen and clear the stale counter.
On failure the engine is left in the partially-updated state the spec
declares undefined but safe to drop. -/
def KvStore.compact (s : KvStore) : Res Unit × KvStore :=
  let cgen := s.current_gen + 1
  let cur := s.current_gen + 2
  let p1 := new_log_file cur s.segments s.readers
  let p2 := new_log_file cgen p1.1 p1.2.1
  match compactLoop cgen p2.1 p2.2.1 s.index_map 0 [] with
  | none =>
      (.crash, { s with
                  segments := p2.1
                  readers := p2.2.1
                  current_gen := cur
                  writerPos := p1.2.2 })
  | some (idx', rdrs3, compContent) =>
    let segs3 := alAppendAt cgen compContent p2.1
    let stale := (alKeys rdrs3).filter (fun g => decide (g < cgen))
    match deleteStale stale rdrs3 segs3 with
    | none =>
        (.err .IOError, { segments := segs3
                          readers := rdrs3
                          index_map := idx'
                          uncompacted := s.uncompacted
                          current_gen := cur
                          writerPos := p1.2.2 })
    | some (rdrs4, segs4) =>
        (.ok (), { segments := segs4
                   readers := rdrs4
                   index_map := idx'
                   uncompacted := 0
                   current_gen := cur
                   writerPos := p1.2.2 })

/-- KvStore::set: append the Set record at the writer's position, flush,
install the locator in the index (crediting a displaced entry's length to
the stale counter), and compact when the counter exceeds the threshold. -/
def KvStore.set (s : KvStore) (key value : String) : Res Unit × KvStore :=
  let bytes := encode (.set key value)
  let pos := s.writerPos
  let segs := alAppendAt s.current_gen bytes s.segments
  let wpos := pos + bytes.length
  let r := idxInsert key ⟨s.current_gen, pos, wpos - pos⟩ s.index_map
  let unc := s.uncompacted + optLen r.1
  let s1 : KvStore :=
    { s with segments := segs, index_map := r.2, uncompacted := unc, writerPos := wpos }
  if COMPACTION_THRESHOLD < unc then s1.compact else (.ok (), s1)

/-- KvStore::get: absent keys yield the no-value sentinel; otherwise seek
the entry's segment reader to the entry's offset (the seek adds the target
to the tracked pos while the file cursor lands on the target), read up to
len bytes, and deserialize exactly one command filling the whole read: a
Set yields its value, a Remove is an unexpected command type.  A missing
reader for the entry's generation is a panic. -/
def KvStore.get (s : KvStore) (key : String) : Res (Option String) × KvStore :=
  match idxLookup key s.index_map with
  | none => (.ok none, s)
  | some cp =>
    match alLookup cp.gen s.readers with
    | none => (.crash, s)
    | some r =>
      let r1 : ReaderSt := r.seekStart cp.pos
      let content := (alLookup cp.gen s.segments).getD []
      let slice := (content.drop cp.pos).take cp.len
      let r2 : ReaderSt := r1.readAdvance slice.length
      let s' : KvStore := { s with readers := alInsert cp.gen r2 s.readers }
      match decodeOne slice with
      | some (cmd, u) =>
        if u = slice.length then
          match cmd with
          | .set _ v => (.ok (some v), s')
          | .remove _ => (.err .UnexpectedCommandType, s')
        else (.err .SerdeError, s')
      | none => (.err .SerdeError, s')

/-- KvStore::remove: a key absent from the index is KeyNotFound and nothing
is written; otherwise append the Remove record, flush, drop the index entry
and credit its length to the stale counter. -/
def KvStore.remove (s : KvStore) (key : String) : Res Unit × KvStore :=
  match idxLookup key s.index_map with
  | none => (.err .KeyNotFound, s)
  | some _ =>
    let bytes := encode (.remove key)
    let segs := alAppendAt s.current_gen bytes s.segments
    let wpos := s.writerPos + bytes.length
    let r := idxRemove key s.index_map
    let unc := s.uncompacted + optLen r.1
    (.ok (), { s with
                segments := segs
                index_map := r.2
                uncompacted := unc
                writerPos := wpos })

/-- The load function: replay one segment from offset 0, decoding one
command at a time; a Set installs its span (crediting a displaced entry),
a Remove drops the entry (crediting it and the Remove record's own bytes);
trailing bytes that do not decode are a serialization error fatal to open. -/
def loadGo (gen : Nat) :
    Nat → Nat → List Nat → List (String × CommandPos) → Nat →
    Res (List (String × CommandPos) × Nat)
  | 0, _, bs, idx, unc =>
      -- Unreachable when the fuel is the byte count: every record occupies
      -- at least one byte, so the stream ends before the fuel does.
      if bs.isEmpty then .ok (idx, unc) else .err .SerdeError
  | fuel + 1, pos, bs, idx, unc =>
    match decodeOne bs with
    | none => if bs.isEmpty then .ok (idx, unc) else .err .SerdeError
    | some (cmd, used) =>
      let new_pos := pos + used
      match cmd with
      | .set k _ =>
        let r := idxInsert k ⟨gen, pos, used⟩ idx
        loadGo gen fuel new_pos (bs.drop used) r.2
          (unc + optLen r.1)
      | .remove k =>
        let r := idxRemove k idx
        loadGo gen fuel new_pos (bs.drop used) r.2
          (unc + optLen r.1 + (new_pos - pos))

/-- Entry point of the replay loop: the fuel is the byte count, which the
loop can never exhaust since every decoded record is at least a byte. -/
def loadLoop (gen pos : Nat) (bs : List Nat) (idx : List (String × CommandPos))
    (unc : Nat) : Res (List (String × CommandPos) × Nat) :=
  loadGo gen bs.length pos bs idx unc

/-- The replay phase of open: for each generation in ascending order, open
a reader at offset 0, replay it through load into the shared index
accumulating stale bytes, and retain the reader (its tracked pos and file
cursor both end at the segment's size, the whole file having been read). -/
def openLoop (disk : List (Nat × List Nat)) :
    List Nat → List (String × CommandPos) → List (Nat × ReaderSt) → Nat →
    Res (List (String × CommandPos) × List (Nat × ReaderSt) × Nat)
  | [], idx, rdrs, unc => .ok (idx, rdrs, unc)
  | g :: rest, idx, rdrs, unc =>
    let content := (alLookup g disk).getD []
    match loadLoop g 0 content idx 0 with
    | .err e => .err e
    | .crash => .crash
    | .ok (idx', du) =>
        openLoop disk rest idx'
          (alInsert g ⟨content.length, content.length⟩ rdrs) (unc + du)

/-- KvStore::open on a directory whose segment files are the given map:
replay the sorted generation list, then open a fresh active segment with
generation one past the largest (or 1 for an empty directory). -/
def openStore (disk : List (Nat × List Nat)) : Res KvStore :=
  let gen_list := List.insertionSort (· ≤ ·) (disk.map Prod.fst)
  match openLoop disk gen_list [] [] 0 with
  | .err e => .err e
  | .crash => .crash
  | .ok (idx, rdrs, unc) =>
    let current_gen := gen_list.getLast?.getD 0 + 1
    let p := new_log_file current_gen disk rdrs
    .ok { segments := p.1
          readers := p.2.1
          index_map := idx
          uncompacted := unc
          current_gen := current_gen
          writerPos := p.2.2 }

/-- One client operation against an open engine. -/
inductive Op where
  | setOp (k v : String)
  | removeOp (k : String)
  | getOp (k : String)
deriving DecidableEq, Repr

/-- Forget an operation's value, keeping its success or failure. -/
def Res.toUnit : Res α → Res Unit
  | .ok _ => .ok ()
  | .err e => .err e
  | .crash => .crash

/-- Apply one operation to the engine. -/
def step (s : KvStore) : Op → Res Unit × KvStore
  | .setOp k v => s.set k v
  | .removeOp k => s.remove k
  | .getOp k => ((s.get k).1.toUnit, (s.get k).2)

/-- Run a list of operations, stopping at the first failure. -/
def runOps : KvStore → List Op → Option KvStore
  | s, [] => some s
  | s, op :: rest =>
    match step s op with
    | (.ok _, s') => runOps s' rest
    | _ => none

/-! Segment enumeration: sorted_generation_list lists the directory, keeps
regular files whose path extension is log, trims every trailing ".log"
occurrence off the file name, parses the result as a u64 and sorts the
parsed numbers ascending.  A directory is embedded as a list of
(file name, is regular file) pairs. -/

/-- Characters after the last dot of a list, if any dot is present. -/
def afterLastDot : List Char → Option (List Char)
  | [] => none
  | c :: rest =>
    match afterLastDot rest with
    | some e => some e
    | none => if c = '.' then some rest else none

/-- Path::extension on a file name: the portion after the final dot, where
a dot in leading position does not count (a file name beginning with a dot
and containing no other dot has no extension). -/
def rustExtension (name : String) : Option String :=
  match name.toList with
  | [] => none
  | _ :: rest => (afterLastDot rest).map (fun l => String.mk l)

/-- Path::file_stem on a file name: everything before the extension's dot,
or the whole name when there is no extension. -/
def rustFileStem (name : String) : String :=
  match rustExtension name with
  | some e => String.mk (name.toList.take (name.toList.length - (e.toList.length + 1)))
  | none => name

/-- Strip of every trailing ".log" run, on the reversed character list. -/
def stripLogs : List Char → List Char
  | 'g' :: 'o' :: 'l' :: '.' :: rest => stripLogs rest
  | cs => cs

/-- str::trim_end_matches(".log"): remove every trailing ".log" occurrence. -/
def trimEndLog (s : String) : String :=
  String.mk (stripLogs s.toList.reverse).reverse

/-- Numeric value of an ASCII digit. -/
def digitVal (c : Char) : Nat := c.toNat - 48

/-- str::parse::<u64>: an optional leading plus sign, then one or more
ASCII digits, and the value must fit in 64 bits. -/
def rustParseU64 (s : String) : Option Nat :=
  let cs := match s.toList with
    | '+' :: r => r
    | r => r
  if cs ≠ [] ∧ cs.all Char.isDigit then
    let n := cs.foldl (fun a c => a * 10 + digitVal c) 0
    if n < 2 ^ 64 then some n else none
  else none

/-- sorted_generation_list: keep directory entries that are regular files
with extension log, map each file name through trim_end_matches(".log")
and u64 parsing (dropping failures silently), and sort ascending. -/
def sorted_generation_list (dir : List (String × Bool)) : List Nat :=
  List.insertionSort (· ≤ ·) (dir.filterMap fun e =>
    if e.2 = true ∧ rustExtension e.1 = some "log"
    then rustParseU64 (trimEndLog e.1) else none)

/-! Concrete engine runs used to evaluate the code at failing inputs. -/

/-- The engine produced by open on an empty directory: one empty active
segment with generation 1, an empty index. -/
def store0 : KvStore :=
  { segments := [(1, [])]
    readers := [(1, ⟨0, 0⟩)]
    index_map := []
    uncompacted := 0
    current_gen := 1
    writerPos := 0 }

/-- Five sets on a fresh store, sized so that the live records sit at
offsets 0, 20, 40 and 30 of generation 1 (the key c record at offset 40
was written after the key d record at offset 30, c having first been set
at offset 10 and overwritten). -/
def demoTrace : List Op :=
  [.setOp "a" "aaaaaa", .setOp "c" "cccccc", .setOp "b" "bbbbbb",
   .setOp "d" "dddddd", .setOp "c" "CCCCCC"]

/-- The engine after demoTrace. -/
def demoS1 : KvStore := (runOps store0 demoTrace).getD store0

/-- The engine after compacting demoS1. -/
def demoS2 : KvStore := (demoS1.compact).2

/-- The engine obtained by reopening the directory demoS2 leaves behind. -/
def reopenedDemo : KvStore :=
  match openStore demoS2.segments with
  | .ok s => s
  | _ => store0

/-- C8: the position-tracking reader's seek does not set the tracked pos
to the resulting absolute offset: seeking a reader whose tracked pos is 5
to SeekFrom::Start(3) leaves pos = 5 + 3 = 8, not 3 (the underlying cursor
does land on 3).  Reads do advance pos by exactly the bytes consumed. -/
theorem C8_seek_adds_instead_of_assigning :
    (ReaderSt.seekStart ⟨5, 5⟩ 3).pos = 8 ∧
    ¬ (ReaderSt.seekStart ⟨5, 5⟩ 3).pos = 3 ∧
    (ReaderSt.seekStart ⟨5, 5⟩ 3).filePos = 3 ∧
    (∀ (r : ReaderSt) (n : Nat), (r.readAdvance n).pos = r.pos + n) := by
  refine ⟨rfl, by decide, rfl, fun r n => rfl⟩

/-- C3: evaluating compact at a failing input.  After demoTrace the index
holds a at 0, b at 20, c at 40, d at 30 in generation 1.  Compacting
processes keys in index order; after copying a and b the reader's tracked
pos is 40 (twice 20, by the accumulating seek) while its cursor is at 30,
so the entry for c, at offset 40, skips its seek and copies the record
Set d dddddd instead: get c returns dddddd after compact but CCCCCC
before. -/
theorem C3_compact_corrupts_live_record :
    openStore [] = Res.ok store0 ∧
    runOps store0 demoTrace = some demoS1 ∧
    (demoS1.get "c").1 = Res.ok (some "CCCCCC") ∧
    demoS1.compact = (Res.ok (), demoS2) ∧
    (demoS2.get "c").1 = Res.ok (some "dddddd") ∧
    ¬ (("dddddd" : String) = "CCCCCC") := by
  exact ⟨by decide, by decide, by decide, by decide, by decide, by decide⟩

/-- C2: evaluating reopen at a failing input.  demoS2 (five sets then a
compact, all mutations) answers get c with dddddd, the record compaction
mis-copied; reopening the directory replays the compaction segment, whose
records name only a, b and d, so the reopened engine answers get c with
the absent sentinel: the two engines are observably different. -/
theorem C2_reopen_differs_after_corrupting_compact :
    openStore [] = Res.ok store0 ∧
    runOps store0 demoTrace = some demoS1 ∧
    demoS1.compact = (Res.ok (), demoS2) ∧
    (demoS2.get "c").1 = Res.ok (some "dddddd") ∧
    openStore demoS2.segments = Res.ok reopenedDemo ∧
    (reopenedDemo.get "c").1 = Res.ok none ∧
    ¬ ((Res.ok (some "dddddd") : Res (Option String)) = Res.ok none) := by
  exact ⟨by decide, by decide, by decide, by decide, by decide, by decide, by decide⟩

/-- C9: a directory entry whose file stem does not parse as an integer can
still contribute a generation: 1.log.log has extension log and stem 1.log,
which does not parse as u64, yet trim_end_matches strips both trailing
.log occurrences and the file contributes generation 1. -/
theorem C9_stem_rule_refuted :
    sorted_generation_list [("1.log.log", true)] = [1] ∧
    rustFileStem "1.log.log" = "1.log" ∧
    rustParseU64 "1.log" = none := by
  exact ⟨by decide, by decide, by decide⟩

/-- Keys of the segment map are untouched by an append through an open
segment file handle. -/
theorem alKeys_alAppendAt (k : Nat) (bs : List Nat) (l : List (Nat × List Nat)) :
    alKeys (alAppendAt k bs l) = alKeys l := by
  induction l with
  | nil => rfl
  | cons e rest ih =>
    obtain ⟨k', c⟩ := e
    simp only [alAppendAt]
    split
    · simp [alKeys]
    · simp [alKeys]
      simpa [alKeys] using ih

/-- C6: remove of a key absent from the index fails with KeyNotFound and
returns the engine exactly as it was: nothing is appended to the log and
the index, stale counter and segment set are untouched. -/
theorem C6_remove_absent_unchanged (s : KvStore) (key : String)
    (h : idxLookup key s.index_map = none) :
    s.remove key = (Res.err KvsError.KeyNotFound, s) := by
  simp only [KvStore.remove, h]

/-- C6 witness: removing a key from the freshly opened store. -/
theorem C6_remove_absent_unchanged_witness :
    store0.remove "a" = (Res.err KvsError.KeyNotFound, store0) :=
  C6_remove_absent_unchanged store0 "a" (by decide)

/-- C7: get of an absent key is Ok with the no-value sentinel, never
KeyNotFound; get of a key whose located bytes deserialize to one whole
Remove command fails with UnexpectedCommandType. -/
theorem C7_get_error_discipline :
    (∀ (s : KvStore) (key : String),
      idxLookup key s.index_map = none → s.get key = (Res.ok none, s)) ∧
    (∀ (s : KvStore) (key k2 : String) (cp : CommandPos) (r : ReaderSt) (u : Nat),
      idxLookup key s.index_map = some cp →
      alLookup cp.gen s.readers = some r →
      decodeOne ((((alLookup cp.gen s.segments).getD []).drop cp.pos).take cp.len)
        = some (Command.remove k2, u) →
      u = ((((alLookup cp.gen s.segments).getD []).drop cp.pos).take cp.len).length →
      (s.get key).1 = Res.err KvsError.UnexpectedCommandType) := by
  constructor
  · intro s key h
    simp only [KvStore.get, h]
  · intro s key k2 cp r u h1 h2 h3 h4
    simp only [KvStore.get, h1, h2, h3, h4, if_pos]

/-- C7 witness: the fresh store answers an absent key with Ok none, and a
store whose index entry for key a locates a Remove record answers get a
with UnexpectedCommandType. -/
def c7Store : KvStore :=
  { segments := [(1, encode (Command.remove "a"))]
    readers := [(1, ⟨0, 0⟩)]
    index_map := [("a", ⟨1, 0, 3⟩)]
    uncompacted := 0
    current_gen := 1
    writerPos := 3 }

theorem C7_get_error_discipline_witness :
    store0.get "zzz" = (Res.ok none, store0) ∧
    (c7Store.get "a").1 = Res.err KvsError.UnexpectedCommandType :=
  ⟨C7_get_error_discipline.1 store0 "zzz" (by decide),
   C7_get_error_discipline.2 c7Store "a" "a" ⟨1, 0, 3⟩ ⟨0, 0⟩ 3
     (by decide) (by decide) (by decide) (by decide)⟩

/-- C10: a successful remove never invokes compaction: the segment file
set, the readers map, and the active generation are exactly as before,
whatever the stale counter is. -/
theorem C10_remove_defers_compaction (s : KvStore) (key : String) (s' : KvStore)
    (h : s.remove key = (Res.ok (), s')) :
    alKeys s'.segments = alKeys s.segments ∧ s'.readers = s.readers ∧
    s'.current_gen = s.current_gen := by
  unfold KvStore.remove at h
  cases hl : idxLookup key s.index_map with
  | none => rw [hl] at h; simp at h
  | some cp =>
    rw [hl] at h
    simp only [Prod.mk.injEq] at h
    obtain ⟨-, h2⟩ := h
    subst h2
    exact ⟨alKeys_alAppendAt _ _ _, rfl, rfl⟩

/-- C10 witness: a store whose stale counter already exceeds the
compaction threshold still keeps its segment set, readers and generation
across a successful remove. -/
def c10State : KvStore :=
  { segments := [(1, encode (Command.set "a" "xxxxxx"))]
    readers := [(1, ⟨0, 0⟩)]
    index_map := [("a", ⟨1, 0, 10⟩)]
    uncompacted := 2000000
    current_gen := 1
    writerPos := 10 }

theorem C10_remove_defers_compaction_witness :
    COMPACTION_THRESHOLD < c10State.uncompacted ∧
    (alKeys (c10State.remove "a").2.segments = alKeys c10State.segments ∧
     (c10State.remove "a").2.readers = c10State.readers ∧
     (c10State.remove "a").2.current_gen = c10State.current_gen) :=
  ⟨by decide,
   C10_remove_defers_compaction c10State "a" (c10State.remove "a").2 (by decide)⟩

/-! Size accounting over the embedding. -/

/-- Total serialized length of the records the index points at (the live
bytes). -/
def sumLens (idx : List (String × CommandPos)) : Nat :=
  (idx.map fun e => e.2.len).sum

/-- Live bytes of an engine state. -/
def liveBytes (s : KvStore) : Nat := sumLens s.index_map

/-- Total byte size of a segment file map. -/
def segsSize (l : List (Nat × List Nat)) : Nat :=
  (l.map fun e => e.2.length).sum

/-- Bytes on disk across all segment files of an engine state. -/
def diskBytes (s : KvStore) : Nat := segsSize s.segments

/-- A successful lookup means the key is present. -/
theorem alLookup_mem {l : List (Nat × α)} {k : Nat} {v : α}
    (h : alLookup k l = some v) : k ∈ alKeys l := by
  induction l with
  | nil => simp [alLookup] at h
  | cons e rest ih =>
    obtain ⟨k', w⟩ := e
    by_cases hk : k = k'
    · simp [alKeys, hk]
    · rw [alLookup, if_neg hk] at h
      simp [alKeys]
      exact Or.inr (by simpa [alKeys] using ih h)

/-- Key membership after an insert. -/
theorem mem_alKeys_alInsert (k x : Nat) (v : α) (l : List (Nat × α)) :
    x ∈ alKeys (alInsert k v l) ↔ x = k ∨ x ∈ alKeys l := by
  induction l with
  | nil => simp [alInsert, alKeys]
  | cons e rest ih =>
    obtain ⟨k', w⟩ := e
    simp only [alInsert]
    split
    · simp only [alKeys, List.map_cons, List.mem_cons]
    · split
      · rename_i hlt heq
        subst heq
        simp only [alKeys, List.map_cons, List.mem_cons]
        tauto
      · simp only [alKeys, List.map_cons, List.mem_cons]
        rw [show List.map Prod.fst (alInsert k v rest) = alKeys (alInsert k v rest)
              from rfl, ih]
        tauto

/-- Key membership after a removal. -/
theorem mem_alKeys_alRemove (g x : Nat) (l : List (Nat × α)) :
    x ∈ alKeys (alRemove g l) ↔ x ∈ alKeys l ∧ x ≠ g := by
  simp only [alKeys, alRemove, List.mem_map, List.mem_filter, bne_iff_ne]
  constructor
  · rintro ⟨e, ⟨he, hne⟩, rfl⟩
    exact ⟨⟨e, he, rfl⟩, hne⟩
  · rintro ⟨⟨e, he, rfl⟩, hne⟩
    exact ⟨e, ⟨he, hne⟩, rfl⟩

/-- What a successful compaction loop guarantees: every rewritten index
entry is located in the compaction generation, the readers map keeps
exactly its key set, and the compaction writer's content grows by exactly
the sum of the new locator lengths (each locator records the bytes
actually copied). -/
theorem compactLoop_spec (cgen : Nat) (segs : List (Nat × List Nat)) :
    ∀ (entries : List (String × CommandPos)) (rdrs : List (Nat × ReaderSt))
      (np : Nat) (cc : List Nat)
      (out : List (String × CommandPos) × List (Nat × ReaderSt) × List Nat),
      compactLoop cgen segs rdrs entries np cc = some out →
      (∀ e ∈ out.1, e.2.gen = cgen) ∧
      (∀ g, g ∈ alKeys out.2.1 ↔ g ∈ alKeys rdrs) ∧
      out.2.2.length = cc.length + sumLens out.1 := by
  intro entries
  induction entries with
  | nil =>
    intro rdrs np cc out h
    simp only [compactLoop, Option.some.injEq] at h
    subst h
    simp [sumLens]
  | cons e rest ih =>
    obtain ⟨k, cp⟩ := e
    intro rdrs np cc out h
    simp only [compactLoop] at h
    split at h
    · exact absurd h (by simp)
    · rename_i r hlk
      split at h
      · exact absurd h (by simp)
      · rename_i idxRest rF cF hrec
        simp only [Option.some.injEq] at h
        subst h
        obtain ⟨ih1, ih2, ih3⟩ := ih _ _ _ _ hrec
        refine ⟨?_, ?_, ?_⟩
        · intro e he
          rcases List.mem_cons.mp he with rfl | hmem
          · rfl
          · exact ih1 e hmem
        · intro g
          rw [ih2 g, mem_alKeys_alInsert]
          have hm := alLookup_mem hlk
          constructor
          · rintro (rfl | hg)
            · exact hm
            · exact hg
          · exact Or.inr
        · simp only [sumLens, List.map_cons, List.sum_cons] at *
          simp only [List.length_append] at ih3
          omega

/-- A successful stale sweep removes exactly the listed generations from
both the readers map and the disk. -/
theorem deleteStale_spec :
    ∀ (l : List Nat) (rdrs : List (Nat × ReaderSt)) (segs : List (Nat × List Nat))
      (out : List (Nat × ReaderSt) × List (Nat × List Nat)),
      deleteStale l rdrs segs = some out →
      (∀ g, g ∈ alKeys out.1 ↔ g ∈ alKeys rdrs ∧ g ∉ l) ∧
      (∀ g, g ∈ alKeys out.2 ↔ g ∈ alKeys segs ∧ g ∉ l)
  | [], rdrs, segs, out, h => by
      simp only [deleteStale, Option.some.injEq] at h
      subst h
      simp
  | g0 :: rest, rdrs, segs, out, h => by
      simp only [deleteStale] at h
      split at h
      · obtain ⟨ih1, ih2⟩ :=
          deleteStale_spec rest (alRemove g0 rdrs) (alRemove g0 segs) out h
        refine ⟨fun g => ?_, fun g => ?_⟩
        · rw [ih1 g, mem_alKeys_alRemove]
          simp only [List.mem_cons]
          tauto
        · rw [ih2 g, mem_alKeys_alRemove]
          simp only [List.mem_cons]
          tauto
      · exact absurd h (by simp)

/-- C4: after a successful compact on an engine whose active generation is
g (and whose on-disk generations all have readers), every index entry is
located in generation g+1, every generation strictly below g+1 is gone
from both the readers map and the disk, the new active generation is g+2,
and the stale counter is 0. -/
theorem C4_compact_postcondition (s s' : KvStore)
    (hsub : ∀ g ∈ alKeys s.segments, g ∈ alKeys s.readers)
    (hok : s.compact = (Res.ok (), s')) :
    (∀ e ∈ s'.index_map, e.2.gen = s.current_gen + 1) ∧
    (∀ g, g < s.current_gen + 1 → g ∉ alKeys s'.readers ∧ g ∉ alKeys s'.segments) ∧
    s'.current_gen = s.current_gen + 2 ∧
    s'.uncompacted = 0 := by
  simp only [KvStore.compact, new_log_file] at hok
  split at hok
  · exact absurd hok (by simp)
  · rename_i idx' rdrs3 cc hcl
    split at hok
    · exact absurd hok (by simp)
    · rename_i rdrs4 segs4 hds
      simp only [Prod.mk.injEq] at hok
      obtain ⟨-, hrec⟩ := hok
      subst hrec
      obtain ⟨hgen, hkeys, -⟩ := compactLoop_spec _ _ _ _ _ _ _ hcl
      obtain ⟨hdr, hdsg⟩ := deleteStale_spec _ _ _ _ hds
      refine ⟨hgen, ?_, rfl, rfl⟩
      intro g hg
      constructor
      · intro hmem
        obtain ⟨h3, hnst⟩ := (hdr g).mp hmem
        exact hnst (List.mem_filter.mpr ⟨h3, by simpa using hg⟩)
      · intro hmem
        obtain ⟨h3, hnst⟩ := (hdsg g).mp hmem
        rw [alKeys_alAppendAt] at h3
        rcases (mem_alKeys_alInsert _ _ _ _).mp h3 with rfl | h4
        · omega
        · rcases (mem_alKeys_alInsert _ _ _ _).mp h4 with rfl | h5
          · omega
          · have h6 : g ∈ alKeys rdrs3 := by
              rw [hkeys g, mem_alKeys_alInsert, mem_alKeys_alInsert]
              exact Or.inr (Or.inr (hsub g h5))
            exact hnst (List.mem_filter.mpr ⟨h6, by simpa using hg⟩)

/-- C4 witness: compacting a small engine (empty index, one segment,
stale counter 5). -/
def c4Demo : KvStore :=
  { segments := [(1, [])]
    readers := [(1, ⟨0, 0⟩)]
    index_map := []
    uncompacted := 5
    current_gen := 1
    writerPos := 0 }

theorem C4_compact_postcondition_witness :
    (∀ e ∈ (c4Demo.compact).2.index_map, e.2.gen = c4Demo.current_gen + 1) ∧
    (∀ g, g < c4Demo.current_gen + 1 →
      g ∉ alKeys (c4Demo.compact).2.readers ∧ g ∉ alKeys (c4Demo.compact).2.segments) ∧
    (c4Demo.compact).2.current_gen = c4Demo.current_gen + 2 ∧
    (c4Demo.compact).2.uncompacted = 0 :=
  C4_compact_postcondition c4Demo (c4Demo.compact).2 (by decide) (by decide)

/-- C9 (amended): segment enumeration returns, in ascending order, exactly
the u64 values parsed from the names of regular files whose extension is
log after stripping every trailing .log occurrence; entries failing any of
those checks are silently ignored.  (The original stem-parses condition is
refuted separately: a name like 1.log.log has stem 1.log, which does not
parse, yet contributes generation 1.) -/
theorem C9_enumeration_characterization (dir : List (String × Bool)) :
    (sorted_generation_list dir).Sorted (· ≤ ·) ∧
    (∀ g : Nat, g ∈ sorted_generation_list dir ↔
      ∃ e ∈ dir, e.2 = true ∧ rustExtension e.1 = some "log" ∧
        rustParseU64 (trimEndLog e.1) = some g) := by
  constructor
  · exact List.sorted_insertionSort _ _
  · intro g
    unfold sorted_generation_list
    rw [(List.perm_insertionSort _ _).mem_iff, List.mem_filterMap]
    constructor
    · rintro ⟨e, he, hf⟩
      by_cases h : e.2 = true ∧ rustExtension e.1 = some "log"
      · rw [if_pos h] at hf
        exact ⟨e, he, h.1, h.2, hf⟩
      · rw [if_neg h] at hf
        cases hf
    · rintro ⟨e, he, h1, h2, h3⟩
      exact ⟨e, he, by rw [if_pos ⟨h1, h2⟩]; exact h3⟩

/-! Accounting lemmas for the disk-size bound. -/

/-- Inserting a locator adds its length to the live bytes and returns the
displaced length: the books balance whether or not a previous entry
existed. -/
theorem sumLens_idxInsert (k : String) (v : CommandPos) :
    ∀ idx : List (String × CommandPos),
      sumLens (idxInsert k v idx).2 + optLen (idxInsert k v idx).1
        = sumLens idx + v.len
  | [] => by simp [idxInsert, sumLens, optLen]
  | (k', v') :: rest => by
    simp only [idxInsert]
    split
    · simp [sumLens, optLen]
      omega
    · split
      · simp [sumLens, optLen]
        omega
      · have ih := sumLens_idxInsert k v rest
        simp only [sumLens, List.map_cons, List.sum_cons] at *
        simp only [optLen] at *
        omega

/-- An append through an open handle grows the disk by exactly the bytes
written, provided the file is on disk. -/
theorem segsSize_alAppendAt (k : Nat) (bs : List Nat) :
    ∀ l : List (Nat × List Nat), k ∈ alKeys l →
      segsSize (alAppendAt k bs l) = segsSize l + bs.length
  | [], h => by simp [alKeys] at h
  | (k', c) :: rest, h => by
    simp only [alAppendAt]
    split
    · simp [segsSize]
      omega
    · rename_i hne
      have hk : k ∈ alKeys rest := by
        rcases (by simpa [alKeys] using h : k = k' ∨ k ∈ alKeys rest) with rfl | hm
        · exact absurd rfl hne
        · exact hm
      have ih := segsSize_alAppendAt k bs rest hk
      simp only [segsSize, List.map_cons, List.sum_cons] at *
      omega

/-- Lookup of an absent key. -/
theorem alLookup_eq_none {k : Nat} :
    ∀ {l : List (Nat × α)}, k ∉ alKeys l → alLookup k l = none
  | [], _ => rfl
  | (k', v) :: rest, h => by
    have h1 : ¬ k = k' := by
      intro hk
      exact h (by simp [alKeys, hk])
    rw [alLookup, if_neg h1]
    exact alLookup_eq_none (fun hm => h (by simp [alKeys]; exact Or.inr (by simpa [alKeys] using hm)))

/-- Inserting a key above every present key appends at the end. -/
theorem alInsert_append_last (k : Nat) (v : α) :
    ∀ l : List (Nat × α), (∀ g ∈ alKeys l, g < k) →
      alInsert k v l = l ++ [(k, v)]
  | [], _ => rfl
  | (k', w) :: rest, h => by
    have hk : k' < k := h k' (by simp [alKeys])
    rw [alInsert, if_neg (by omega), if_neg (by omega)]
    rw [alInsert_append_last k v rest (fun g hg => h g (by simp [alKeys]; exact Or.inr (by simpa [alKeys] using hg)))]
    rfl

/-- Inserting between the present keys and a larger last key. -/
theorem alInsert_before_last (k k2 : Nat) (v w : α) :
    ∀ l : List (Nat × α), (∀ g ∈ alKeys l, g < k) → k < k2 →
      alInsert k v (l ++ [(k2, w)]) = l ++ [(k, v), (k2, w)]
  | [], _, hk => by
    simp only [List.nil_append, alInsert]
    rw [if_pos hk]
  | (k', u) :: rest, h, hk => by
    have hk' : k' < k := h k' (by simp [alKeys])
    simp only [List.cons_append, alInsert]
    rw [if_neg (by omega), if_neg (by omega)]
    simp only [List.append_eq]
    rw [alInsert_before_last k k2 v w rest (fun g hg => h g (by simp [alKeys]; exact Or.inr (by simpa [alKeys] using hg))) hk]

/-- Appending into the file of a key that sits past a prefix free of that
key. -/
theorem alAppendAt_append (k : Nat) (bs c : List Nat) (tail : List (Nat × List Nat)) :
    ∀ l : List (Nat × List Nat), k ∉ alKeys l →
      alAppendAt k bs (l ++ (k, c) :: tail) = l ++ (k, c ++ bs) :: tail
  | [], _ => by simp [alAppendAt]
  | (k', u) :: rest, h => by
    have h1 : ¬ k' = k := by
      intro hk
      exact h (by simp [alKeys, hk])
    simp only [List.cons_append, alAppendAt, if_neg h1]
    simp only [List.append_eq]
    rw [alAppendAt_append k bs c tail rest (fun hm => h (by simp [alKeys]; exact Or.inr (by simpa [alKeys] using hm)))]

/-- Keys of a concatenation. -/
theorem alKeys_append (l1 l2 : List (Nat × α)) :
    alKeys (l1 ++ l2) = alKeys l1 ++ alKeys l2 := by
  simp [alKeys]

/-- A successful sweep leaves on disk exactly the files whose generation is
not among the swept ones. -/
theorem deleteStale_filter :
    ∀ (l : List Nat) (rdrs : List (Nat × ReaderSt)) (segs : List (Nat × List Nat))
      (out : List (Nat × ReaderSt) × List (Nat × List Nat)),
      deleteStale l rdrs segs = some out →
      out.2 = segs.filter (fun e => decide (e.1 ∉ l))
  | [], rdrs, segs, out, h => by
      simp only [deleteStale, Option.some.injEq] at h
      subst h
      simp
  | g0 :: rest, rdrs, segs, out, h => by
      simp only [deleteStale] at h
      split at h
      · have ih := deleteStale_filter rest (alRemove g0 rdrs) (alRemove g0 segs) out h
        rw [ih, alRemove, List.filter_filter]
        apply List.filter_congr
        intro e _
        by_cases h1 : e.1 = g0
        · simp [h1]
        · by_cases h2 : e.1 ∈ rest <;> simp [h1, h2]
      · exact absurd h (by simp)

/-- Op predicate: is the operation a remove. -/
def Op.isRem : Op → Bool
  | .removeOp _ => true
  | _ => false

/-- The size-accounting invariant behind the disk bound: disk bytes equal
live bytes plus the stale counter, the counter is at most the threshold,
every on-disk generation has a reader, on-disk generations never exceed
the active one, and the active segment is on disk. -/
def EngineInv (s : KvStore) : Prop :=
  diskBytes s = liveBytes s + s.uncompacted ∧
  s.uncompacted ≤ COMPACTION_THRESHOLD ∧
  (∀ g ∈ alKeys s.segments, g ∈ alKeys s.readers) ∧
  (∀ g ∈ alKeys s.segments, g ≤ s.current_gen) ∧
  s.current_gen ∈ alKeys s.segments

/-- A successful compact reestablishes the invariant outright: afterwards
the disk holds exactly the compaction segment (whose size is the sum of
the rewritten locator lengths) and the empty new active segment, and the
stale counter is 0. -/
theorem compact_inv (s s' : KvStore)
    (hsub : ∀ g ∈ alKeys s.segments, g ∈ alKeys s.readers)
    (hle : ∀ g ∈ alKeys s.segments, g ≤ s.current_gen)
    (hok : s.compact = (Res.ok (), s')) : EngineInv s' := by
  have hlt1 : ∀ g ∈ alKeys s.segments, g < s.current_gen + 1 := by
    intro g hg
    have := hle g hg
    omega
  have hlt2 : ∀ g ∈ alKeys s.segments, g < s.current_gen + 2 := by
    intro g hg
    have := hle g hg
    omega
  have hfresh2 : s.current_gen + 2 ∉ alKeys s.segments := by
    intro hm
    have := hle _ hm
    omega
  have hfresh1 : s.current_gen + 1 ∉ alKeys s.segments := by
    intro hm
    have := hle _ hm
    omega
  simp only [KvStore.compact, new_log_file] at hok
  rw [alLookup_eq_none hfresh2, Option.getD_none,
      alInsert_append_last _ _ _ hlt2] at hok
  have e2 : alLookup (s.current_gen + 1) (s.segments ++ [(s.current_gen + 2, [])])
      = none := by
    apply alLookup_eq_none
    rw [alKeys_append]
    intro hm
    rcases List.mem_append.mp hm with hm1 | hm2
    · exact hfresh1 hm1
    · simp [alKeys] at hm2
  rw [e2, Option.getD_none,
      alInsert_before_last _ _ _ _ _ hlt1 (by omega)] at hok
  split at hok
  · exact absurd hok (by simp)
  · rename_i idx' rdrs3 cc hcl
    rw [show s.segments ++ [(s.current_gen + 1, []), (s.current_gen + 2, [])]
          = s.segments ++ (s.current_gen + 1, []) :: [(s.current_gen + 2, [])]
          from rfl,
        alAppendAt_append _ _ _ _ _ hfresh1, List.nil_append] at hok
    split at hok
    · exact absurd hok (by simp)
    · rename_i rdrs4 segs4 hds
      simp only [Prod.mk.injEq] at hok
      obtain ⟨-, hrec⟩ := hok
      subst hrec
      obtain ⟨-, hkeys, hlen⟩ := compactLoop_spec _ _ _ _ _ _ _ hcl
      obtain ⟨hdr, -⟩ := deleteStale_spec _ _ _ _ hds
      have hfil := deleteStale_filter _ _ _ _ hds
      dsimp only at hkeys hlen hdr hfil
      have hmem3 : ∀ g, g ∈ alKeys s.segments → g ∈ alKeys rdrs3 := by
        intro g hg
        rw [hkeys g, mem_alKeys_alInsert, mem_alKeys_alInsert]
        exact Or.inr (Or.inr (hsub g hg))
      have hstale : ∀ g, g ∈ alKeys rdrs3 → g < s.current_gen + 1 →
          g ∈ (alKeys rdrs3).filter (fun g => decide (g < s.current_gen + 1)) := by
        intro g h1 h2
        exact List.mem_filter.mpr ⟨h1, by simpa using h2⟩
      have hstale_lt : ∀ g ∈ (alKeys rdrs3).filter
          (fun g => decide (g < s.current_gen + 1)), g < s.current_gen + 1 := by
        intro g hg
        have := (List.mem_filter.mp hg).2
        simpa using this
      have hsegs4 : segs4 = [(s.current_gen + 1, cc), (s.current_gen + 2, [])] := by
        rw [hfil, List.filter_append]
        have hpre : s.segments.filter
            (fun e => decide (e.1 ∉ (alKeys rdrs3).filter
              (fun g => decide (g < s.current_gen + 1)))) = [] := by
          rw [List.filter_eq_nil_iff]
          intro e he
          have h1 : e.1 ∈ alKeys s.segments := List.mem_map_of_mem Prod.fst he
          have h2 := hstale e.1 (hmem3 e.1 h1) (hlt1 e.1 h1)
          simp [h2]
        rw [hpre, List.nil_append]
        have hc1 : (s.current_gen + 1) ∉ (alKeys rdrs3).filter
            (fun g => decide (g < s.current_gen + 1)) := by
          intro hm
          have := hstale_lt _ hm
          omega
        have hc2 : (s.current_gen + 2) ∉ (alKeys rdrs3).filter
            (fun g => decide (g < s.current_gen + 1)) := by
          intro hm
          have := hstale_lt _ hm
          omega
        simp [hc1, hc2]
      have hlive : sumLens idx' = cc.length := by
        simp only [List.length_nil] at hlen
        omega
      refine ⟨?_, ?_, ?_, ?_, ?_⟩
      · show segsSize segs4 = sumLens idx' + 0
        rw [hsegs4, hlive]
        simp [segsSize]
      · show 0 ≤ COMPACTION_THRESHOLD
        omega
      · show ∀ g ∈ alKeys segs4, g ∈ alKeys rdrs4
        intro g hg
        rw [hsegs4] at hg
        simp only [alKeys, List.map_cons, List.map_nil, List.mem_cons,
          List.not_mem_nil, or_false] at hg
        rcases hg with rfl | rfl
        · rw [hdr]
          refine ⟨?_, ?_⟩
          · rw [hkeys _, mem_alKeys_alInsert]
            exact Or.inl rfl
          · intro hm
            have := hstale_lt _ hm
            omega
        · rw [hdr]
          refine ⟨?_, ?_⟩
          · rw [hkeys _, mem_alKeys_alInsert, mem_alKeys_alInsert]
            exact Or.inr (Or.inl rfl)
          · intro hm
            have := hstale_lt _ hm
            omega
      · show ∀ g ∈ alKeys segs4, g ≤ s.current_gen + 2
        intro g hg
        rw [hsegs4] at hg
        simp only [alKeys, List.map_cons, List.map_nil, List.mem_cons,
          List.not_mem_nil, or_false] at hg
        rcases hg with rfl | rfl
        · omega
        · omega
      · show s.current_gen + 2 ∈ alKeys segs4
        rw [hsegs4]
        simp [alKeys]

/-- A successful set preserves the invariant: the appended record lands in
both the disk total and either the live bytes (fresh key) or the stale
counter balance (displaced entry), and a triggered compaction
reestablishes everything. -/
theorem set_inv (s : KvStore) (k v : String) (s' : KvStore)
    (hinv : EngineInv s) (hok : s.set k v = (Res.ok (), s')) : EngineInv s' := by
  obtain ⟨hacc, hthr, hsub, hle, hmem⟩ := hinv
  simp only [diskBytes, liveBytes] at hacc
  simp only [KvStore.set] at hok
  split at hok
  · refine compact_inv _ _ ?_ ?_ hok
    · intro g hg
      rw [alKeys_alAppendAt] at hg
      exact hsub g hg
    · intro g hg
      rw [alKeys_alAppendAt] at hg
      exact hle g hg
  · rename_i hcond
    simp only [Prod.mk.injEq] at hok
    obtain ⟨-, hrec⟩ := hok
    subst hrec
    have hD := segsSize_alAppendAt s.current_gen (encode (.set k v)) s.segments hmem
    have hL := sumLens_idxInsert k
      ⟨s.current_gen, s.writerPos,
        s.writerPos + (encode (Command.set k v)).length - s.writerPos⟩ s.index_map
    simp only [Nat.add_sub_cancel_left] at hL
    refine ⟨?_, ?_, ?_, ?_, ?_⟩
    · show segsSize _ = sumLens _ + _
      dsimp only
      simp only [Nat.add_sub_cancel_left]
      omega
    · dsimp only
      simp only [Nat.add_sub_cancel_left] at hcond ⊢
      omega
    · intro g hg
      rw [alKeys_alAppendAt] at hg
      exact hsub g hg
    · intro g hg
      rw [alKeys_alAppendAt] at hg
      exact hle g hg
    · show s.current_gen ∈ alKeys (alAppendAt _ _ _)
      rw [alKeys_alAppendAt]
      exact hmem

/-- A get touches only reader positions: everything the invariant speaks
about is untouched (the readers keep their key set). -/
theorem get_inv (s : KvStore) (k : String) (hinv : EngineInv s) :
    EngineInv (s.get k).2 := by
  obtain ⟨hacc, hthr, hsub, hle, hmem⟩ := hinv
  simp only [KvStore.get]
  split
  · exact ⟨hacc, hthr, hsub, hle, hmem⟩
  · rename_i cp hcp
    split
    · exact ⟨hacc, hthr, hsub, hle, hmem⟩
    · rename_i r hr
      have key : ∀ rs : List (Nat × ReaderSt),
          (∀ g ∈ alKeys s.segments, g ∈ alKeys rs) →
          EngineInv { s with readers := rs } :=
        fun rs hrs => ⟨hacc, hthr, hrs, hle, hmem⟩
      have hsup : ∀ g ∈ alKeys s.segments,
          g ∈ alKeys (alInsert cp.gen
            ((r.seekStart cp.pos).readAdvance
              ((((alLookup cp.gen s.segments).getD []).drop cp.pos).take cp.len).length)
            s.readers) :=
        fun g hg => (mem_alKeys_alInsert _ _ _ _).mpr (Or.inr (hsub g hg))
      split
      · split
        · split
          · exact key _ hsup
          · exact key _ hsup
        · exact key _ hsup
      · exact key _ hsup

/-- Running remove-free operations preserves the invariant. -/
theorem runOps_inv :
    ∀ (ops : List Op) (s sF : KvStore),
      (ops.all fun o => !o.isRem) = true →
      EngineInv s → runOps s ops = some sF → EngineInv sF
  | [], s, sF, _, hinv, h => by
      simp only [runOps, Option.some.injEq] at h
      subst h
      exact hinv
  | op :: rest, s, sF, hall, hinv, h => by
      simp only [List.all_cons, Bool.and_eq_true] at hall
      simp only [runOps] at h
      split at h
      · rename_i a s1 hstep
        have hinv1 : EngineInv s1 := by
          cases op with
          | setOp k v =>
            exact set_inv s k v s1 hinv hstep
          | removeOp k =>
            simp [Op.isRem] at hall
          | getOp k =>
            simp only [step, Prod.mk.injEq] at hstep
            obtain ⟨-, hrec⟩ := hstep
            subst hrec
            exact get_inv s k hinv
        exact runOps_inv rest s1 sF hall.2 hinv1 h
      · exact absurd h (by simp)

/-- C5 (amended): in histories without remove on a freshly opened store,
the bytes on disk never exceed the live bytes plus the compaction
threshold, because after every successful set the stale counter is at most
the threshold and disk = live + stale holds throughout. -/
theorem C5_disk_bound_without_removes (ops : List Op) (s0 sF : KvStore)
    (hops : (ops.all fun o => !o.isRem) = true)
    (h0 : openStore [] = Res.ok s0)
    (hrun : runOps s0 ops = some sF) :
    diskBytes sF ≤ liveBytes sF + COMPACTION_THRESHOLD := by
  have hs0 : Res.ok store0 = Res.ok s0 := by
    rw [← h0]
    decide
  have hs0' : store0 = s0 := by
    injection hs0
  subst hs0'
  have hinv0 : EngineInv store0 :=
    ⟨by decide, by decide, by decide, by decide, by decide⟩
  obtain ⟨h1, h2, -⟩ := runOps_inv ops store0 sF hops hinv0 hrun
  omega

/-- C5 witness: two sets and a get from a fresh store. -/
theorem C5_disk_bound_without_removes_witness :
    diskBytes ((runOps store0
        [Op.setOp "a" "xxxxxx", Op.setOp "a" "yyyyyy", Op.getOp "a"]).getD store0)
      ≤ liveBytes ((runOps store0
        [Op.setOp "a" "xxxxxx", Op.setOp "a" "yyyyyy", Op.getOp "a"]).getD store0)
        + COMPACTION_THRESHOLD :=
  C5_disk_bound_without_removes
    [Op.setOp "a" "xxxxxx", Op.setOp "a" "yyyyyy", Op.getOp "a"]
    store0 _ (by decide) (by decide) (by decide)

/-- C5 counterexample to the claim as stated: one set then one remove
leaves zero live bytes but 13 bytes on disk, violating every multiple of
the live size; removes raise the stale counter without compacting. -/
def c5Cex : KvStore :=
  (runOps store0 [Op.setOp "a" "xxxxxx", Op.removeOp "a"]).getD store0

theorem C5_two_times_live_refuted :
    runOps store0 [Op.setOp "a" "xxxxxx", Op.removeOp "a"] = some c5Cex ∧
    liveBytes c5Cex = 0 ∧
    diskBytes c5Cex = 13 ∧
    ¬ (diskBytes c5Cex ≤ 2 * liveBytes c5Cex) := by
  exact ⟨by decide, by decide, by decide, by decide⟩

/-! The C1 failing input: a compaction triggered by set itself.  The stale
counter must exceed the 1 MiB threshold, so one overwritten record is a
mebibyte long; every step below is symbolic in that record's bytes (the
value is a parameter constrained only in length, instantiated at the end),
so no megabyte list is ever normalized. -/

/-- A value of 1048577 bytes: overwriting its record credits 1048581 stale
bytes, just over the threshold. -/
def bigV : String := String.mk (List.replicate 1048577 'x')

/-- The small records of the C1 trace. -/
def ebRec : List Nat := encode (Command.set "b" "vbvbvb")

def ecRec : List Nat := encode (Command.set "c" "vcvcvc")

def eaRec : List Nat := encode (Command.set "a" "vavava")

def ez2Rec : List Nat := encode (Command.set "z" "v2v2v2")

/-- The big record, parametric in the value. -/
def zRec (v : String) : List Nat := encode (Command.set "z" v)

/-- Segment 1 content after the four sets. -/
def c1Log4v (v : String) : List Nat := ((ebRec ++ ecRec) ++ eaRec) ++ zRec v

/-- Segment 1 content after all five sets. -/
def c1Log5v (v : String) : List Nat := c1Log4v v ++ ez2Rec

/-- The C1 trace: three small sets, the big set, two gets of key b (the
second desynchronizes the reader: its tracked pos ends at 20 while the
cursor is at 10, by the accumulating seek), and the overwrite of z whose
displaced record pushes the stale counter over the threshold, triggering
compaction inside set. -/
def c1TraceOf (v : String) : List Op :=
  [.setOp "b" "vbvbvb", .setOp "c" "vcvcvc", .setOp "a" "vavava",
   .setOp "z" v, .getOp "b", .getOp "b", .setOp "z" "v2v2v2"]

/-- The claim's sequential specification: the value of the most recent set
of the key not followed by a later remove. -/
def lwwSpec (ops : List Op) (k : String) : Option String :=
  ops.foldl (fun acc op =>
    match op with
    | .setOp k2 v => if k2 = k then some v else acc
    | .removeOp k2 => if k2 = k then none else acc
    | .getOp _ => acc) none

def c1S1 : KvStore :=
  { segments := [(1, ebRec)]
    readers := [(1, ⟨0, 0⟩)]
    index_map := [("b", ⟨1, 0, 10⟩)]
    uncompacted := 0
    current_gen := 1
    writerPos := 10 }

def c1S2 : KvStore :=
  { segments := [(1, ebRec ++ ecRec)]
    readers := [(1, ⟨0, 0⟩)]
    index_map := [("b", ⟨1, 0, 10⟩), ("c", ⟨1, 10, 10⟩)]
    uncompacted := 0
    current_gen := 1
    writerPos := 20 }

def c1S3 : KvStore :=
  { segments := [(1, (ebRec ++ ecRec) ++ eaRec)]
    readers := [(1, ⟨0, 0⟩)]
    index_map := [("a", ⟨1, 20, 10⟩), ("b", ⟨1, 0, 10⟩), ("c", ⟨1, 10, 10⟩)]
    uncompacted := 0
    current_gen := 1
    writerPos := 30 }

def c1S4 (v : String) : KvStore :=
  { segments := [(1, c1Log4v v)]
    readers := [(1, ⟨0, 0⟩)]
    index_map := [("a", ⟨1, 20, 10⟩), ("b", ⟨1, 0, 10⟩), ("c", ⟨1, 10, 10⟩),
                  ("z", ⟨1, 30, 1048581⟩)]
    uncompacted := 0
    current_gen := 1
    writerPos := 1048611 }

def c1S5 (v : String) : KvStore := { c1S4 v with readers := [(1, ⟨10, 10⟩)] }

def c1S6 (v : String) : KvStore := { c1S4 v with readers := [(1, ⟨20, 10⟩)] }

/-- The state the triggering set hands to compact: the tracked pos of the
gen-1 reader is 20, its cursor at 10, and the live entry for a sits at
offset 20. -/
def c1S7 (v : String) : KvStore :=
  { segments := [(1, c1Log5v v)]
    readers := [(1, ⟨20, 10⟩)]
    index_map := [("a", ⟨1, 20, 10⟩), ("b", ⟨1, 0, 10⟩), ("c", ⟨1, 10, 10⟩),
                  ("z", ⟨1, 1048611, 10⟩)]
    uncompacted := 1048581
    current_gen := 1
    writerPos := 1048621 }

/-- The engine after the triggered compaction: the compaction segment
holds, in index order, the bytes copied for a (the record of c, by the
spurious seek skip), then b's, c's and z's records; generation 1 is gone. -/
def c1Final : KvStore :=
  { segments := [(2, ((ecRec ++ ebRec) ++ ecRec) ++ ez2Rec), (3, [])]
    readers := [(2, ⟨0, 0⟩), (3, ⟨0, 0⟩)]
    index_map := [("a", ⟨2, 0, 10⟩), ("b", ⟨2, 10, 10⟩), ("c", ⟨2, 20, 10⟩),
                  ("z", ⟨2, 30, 10⟩)]
    uncompacted := 0
    current_gen := 3
    writerPos := 0 }

theorem bigV_len : (strBytes bigV).length = 1048577 := by
  have h : strBytes bigV = List.map Char.toNat (List.replicate 1048577 'x') := rfl
  rw [h, List.length_map, List.length_replicate]

theorem ebRec_len : ebRec.length = 10 := by decide

theorem ecRec_len : ecRec.length = 10 := by decide

theorem eaRec_len : eaRec.length = 10 := by decide

theorem ez2Rec_len : ez2Rec.length = 10 := by decide

theorem zRec_unfold (v : String) : zRec v
    = 0 :: (strBytes "z").length :: (strBytes "z" ++ ((strBytes v).length :: strBytes v)) := rfl

theorem zRec_len (v : String) (hv : (strBytes v).length = 1048577) :
    (encode (Command.set "z" v)).length = 1048581 := by
  have h1 := congrArg List.length (zRec_unfold v)
  simp only [List.length_cons, List.length_append, hv] at h1
  have hz : (strBytes "z").length = 1 := rfl
  rw [hz] at h1
  simp only [zRec] at h1
  omega

theorem c1Log4v_len (v : String) (hv : (strBytes v).length = 1048577) :
    (c1Log4v v).length = 1048611 := by
  simp only [c1Log4v, List.length_append, ebRec_len, ecRec_len, eaRec_len,
    zRec, zRec_len v hv]

theorem c1Log4v_assoc (v : String) :
    c1Log4v v = ebRec ++ (ecRec ++ (eaRec ++ zRec v)) := by
  simp [c1Log4v, List.append_assoc]

theorem c1Log5v_assoc (v : String) :
    c1Log5v v = ebRec ++ (ecRec ++ (eaRec ++ (zRec v ++ ez2Rec))) := by
  simp [c1Log5v, c1Log4v, List.append_assoc]

theorem slice_log4_b (v : String) : (c1Log4v v).take 10 = ebRec := by
  rw [c1Log4v_assoc, List.take_left' ebRec_len]

theorem slice_log5_b (v : String) : (c1Log5v v).take 10 = ebRec := by
  rw [c1Log5v_assoc, List.take_left' ebRec_len]

theorem slice_log5_c (v : String) : ((c1Log5v v).drop 10).take 10 = ecRec := by
  rw [c1Log5v_assoc, List.drop_left' ebRec_len, List.take_left' ecRec_len]

theorem slice_log5_z2 (v : String) (hv : (strBytes v).length = 1048577) :
    ((c1Log5v v).drop 1048611).take 10 = ez2Rec := by
  rw [show c1Log5v v = c1Log4v v ++ ez2Rec from rfl,
      List.drop_left' (c1Log4v_len v hv)]
  decide

theorem decode_eb : decodeOne ebRec = some (Command.set "b" "vbvbvb", 10) := by decide

theorem ez2Rec_enc_len : (encode (Command.set "z" "v2v2v2")).length = 10 := by decide

theorem c1_step1 : store0.set "b" "vbvbvb" = (Res.ok (), c1S1) := by decide

theorem c1_step2 : c1S1.set "c" "vcvcvc" = (Res.ok (), c1S2) := by decide

theorem c1_step3 : c1S2.set "a" "vavava" = (Res.ok (), c1S3) := by decide

set_option maxRecDepth 100000 in
set_option maxHeartbeats 1000000 in
theorem c1_step4 (v : String) (hv : (strBytes v).length = 1048577) :
    c1S3.set "z" v = (Res.ok (), c1S4 v) := by
  have hza : strLt "z" "a" = false := by decide
  have hzb : strLt "z" "b" = false := by decide
  have hzc : strLt "z" "c" = false := by decide
  simp [KvStore.set, c1S3, alAppendAt, idxInsert, optLen,
    COMPACTION_THRESHOLD, hza, hzb, hzc, zRec_len v hv, Nat.add_sub_cancel_left,
    c1S4, c1Log4v, zRec]

set_option maxRecDepth 100000 in
set_option maxHeartbeats 1000000 in
theorem c1_step5 (v : String) :
    (c1S4 v).get "b" = (Res.ok (some "vbvbvb"), c1S5 v) := by
  simp [KvStore.get, c1S4, c1S5, idxLookup, alLookup, alInsert,
    ReaderSt.seekStart, ReaderSt.readAdvance, slice_log4_b, decode_eb, ebRec_len]

set_option maxRecDepth 100000 in
set_option maxHeartbeats 1000000 in
theorem c1_step6 (v : String) :
    (c1S5 v).get "b" = (Res.ok (some "vbvbvb"), c1S6 v) := by
  simp [KvStore.get, c1S4, c1S5, c1S6, idxLookup, alLookup, alInsert,
    ReaderSt.seekStart, ReaderSt.readAdvance, slice_log4_b, decode_eb, ebRec_len]

set_option maxRecDepth 100000 in
set_option maxHeartbeats 1000000 in
theorem c1_step7 (v : String) :
    (c1S6 v).set "z" "v2v2v2" = (c1S7 v).compact := by
  have hza : strLt "z" "a" = false := by decide
  have hzb : strLt "z" "b" = false := by decide
  have hzc : strLt "z" "c" = false := by decide
  have hzz : strLt "z" "z" = false := by decide
  have hea : (("z" : String) = "a") = False := eq_false (by decide)
  have heb : (("z" : String) = "b") = False := eq_false (by decide)
  have hec : (("z" : String) = "c") = False := eq_false (by decide)
  have hlt : ((1048576 : Nat) < 0 + 1048581) = True := eq_true (by decide)
  have hadd : (1048611 : Nat) + 10 = 1048621 := rfl
  simp only [KvStore.set, c1S4, c1S6, c1S7, alAppendAt, idxInsert, optLen,
    COMPACTION_THRESHOLD, hza, hzb, hzc, hzz, hea, heb, hec,
    ez2Rec_enc_len, Nat.add_sub_cancel_left, hadd,
    c1Log5v, c1Log4v, zRec, ez2Rec, eq_self_iff_true, if_true, if_false,
    Bool.false_eq_true, List.append_assoc, hlt]

set_option maxRecDepth 100000 in
set_option maxHeartbeats 2000000 in
theorem c1_step8 (v : String) (hv : (strBytes v).length = 1048577) :
    (c1S7 v).compact = (Res.ok (), c1Final) := by
  simp only [KvStore.compact, new_log_file, c1S7, c1Final, alLookup, alInsert,
    alRemove, alAppendAt, alKeys, deleteStale, compactLoop,
    ReaderSt.seekStart, ReaderSt.readAdvance,
    slice_log5_b, slice_log5_c, slice_log5_z2 v hv,
    ebRec_len, ecRec_len, ez2Rec_len,
    List.drop_zero, List.filter_cons, List.filter_nil, List.map_cons,
    List.map_nil, List.nil_append, List.append_assoc,
    Option.getD_none, Option.getD_some, Option.isSome_some, Option.isSome_none,
    ne_eq, Nat.reduceEqDiff, Nat.reduceLT, Nat.reduceAdd, Nat.reduceBNe,
    Nat.add_zero, Nat.zero_add, not_true, not_false_iff,
    decide_True, decide_False, eq_self_iff_true, if_true, if_false,
    Bool.false_eq_true, Bool.true_eq_false]

/-- One successful operation peels off the head of a run. -/
theorem runOps_cons_ok (s : KvStore) (op : Op) (s' : KvStore) (rest : List Op)
    (h : step s op = (Res.ok (), s')) : runOps s (op :: rest) = runOps s' rest := by
  simp only [runOps, h]

/-- Running the whole C1 trace from a fresh store, for any value of the
required length, ends in the corrupted state. -/
theorem c1_run (v : String) (hv : (strBytes v).length = 1048577) :
    runOps store0 (c1TraceOf v) = some c1Final := by
  have e1 : step store0 (Op.setOp "b" "vbvbvb") = (Res.ok (), c1S1) := c1_step1
  have e2 : step c1S1 (Op.setOp "c" "vcvcvc") = (Res.ok (), c1S2) := c1_step2
  have e3 : step c1S2 (Op.setOp "a" "vavava") = (Res.ok (), c1S3) := c1_step3
  have e4 : step c1S3 (Op.setOp "z" v) = (Res.ok (), c1S4 v) := c1_step4 v hv
  have e5 : step (c1S4 v) (Op.getOp "b") = (Res.ok (), c1S5 v) := by
    show (((c1S4 v).get "b").1.toUnit, ((c1S4 v).get "b").2) = (Res.ok (), c1S5 v)
    rw [c1_step5 v]
    rfl
  have e6 : step (c1S5 v) (Op.getOp "b") = (Res.ok (), c1S6 v) := by
    show (((c1S5 v).get "b").1.toUnit, ((c1S5 v).get "b").2) = (Res.ok (), c1S6 v)
    rw [c1_step6 v]
    rfl
  have e7 : step (c1S6 v) (Op.setOp "z" "v2v2v2") = (Res.ok (), c1Final) :=
    (c1_step7 v).trans (c1_step8 v hv)
  rw [c1TraceOf, runOps_cons_ok _ _ _ _ e1, runOps_cons_ok _ _ _ _ e2,
      runOps_cons_ok _ _ _ _ e3, runOps_cons_ok _ _ _ _ e4,
      runOps_cons_ok _ _ _ _ e5, runOps_cons_ok _ _ _ _ e6,
      runOps_cons_ok _ _ _ _ e7]
  rfl

/-- C1: evaluating the engine at a failing input.  On the trace of
set/get operations c1TraceOf bigV (no explicit compact call; the last set
pushes the stale counter to 1048581, over the 1 MiB threshold, so set
itself compacts), the engine ends in a state where get a returns the value
last written for c, while the most recent set for a (never removed) wrote
vavava.  The last-write-wins claim fails because compaction, entered with
a reader whose tracked pos is 20 but whose cursor is at 10, skips the seek
for a's entry at offset 20 and copies c's record in its place. -/
theorem C1_lww_violated_by_triggered_compaction :
    lwwSpec (c1TraceOf bigV) "a" = some "vavava" ∧
    runOps store0 (c1TraceOf bigV) = some c1Final ∧
    (c1Final.get "a").1 = Res.ok (some "vcvcvc") ∧
    ¬ (("vcvcvc" : String) = "vavava") :=
  ⟨by decide, c1_run bigV bigV_len, by decide, by decide⟩
